import Mathlib

/-!
Verification of the langchain-rag-tut repository.

Shallow embedding of the TypeScript pipeline code (src/pipeline.ts,
src/models.ts and the unnamed variant files) into Lean 4, together with
theorems settling the frozen claims about the specification.

Conventions:
- TypeScript strings stay `String` (the section labels are the string
  literals "beginning", "middle", "end", exactly as in the source).
- The metadata key `section` is embedded as the field `sect` because
  `section` is a Lean keyword.
- External collaborators (vector index, chat model, graph engine) are
  black boxes in the spec; where a claim depends on their contract the
  corresponding definition is modelled from the spec and marked
  `Modelled from the spec:` in its doc comment.
-/

/-! ## Section labeling (src/pipeline.ts lines 38-49, repeated in every variant)

```ts
const third = Math.floor(totalDocuments / 3);
allSplits.forEach((document, i) => {
  if (i < third) { document.metadata.section = "beginning"; }
  else if (i < third * 2) { document.metadata.section = "middle"; }
  else { document.metadata.section = "end"; }
});
```
-/

/-- The label the forEach body assigns to the chunk at index `i` when there
are `N` chunks in total. `third` is `Math.floor(totalDocuments / 3)`,
i.e. Nat division. -/
def sectionLabel (i N : Nat) : String :=
  let third := N / 3
  if i < third then "beginning"
  else if i < third * 2 then "middle"
  else "end"

/-- Helper: length of the filter of `List.range N` by `j < k`. -/
lemma length_filter_range_lt (N k : Nat) :
    ((List.range N).filter (fun j => decide (j < k))).length = min k N := by
  induction N with
  | zero => simp
  | succ n ih =>
    rw [List.range_succ, List.filter_append, List.length_append, ih]
    by_cases h : n < k
    · simp [h]; omega
    · simp [h]; omega

/-- Helper: length of the filter of `List.range N` by a decidable predicate
equivalent to `a ≤ j ∧ j < b`. -/
lemma length_filter_range_band (N a b : Nat) :
    ((List.range N).filter (fun j => decide (a ≤ j) && decide (j < b))).length
      = min b N - min a N := by
  induction N with
  | zero => simp
  | succ n ih =>
    rw [List.range_succ, List.filter_append, List.length_append, ih]
    by_cases h1 : a ≤ n <;> by_cases h2 : n < b <;> simp [h1, h2] <;> omega

/-- Helper: length of the filter of `List.range N` by `b ≤ j`. -/
lemma length_filter_range_ge (N b : Nat) :
    ((List.range N).filter (fun j => decide (b ≤ j))).length = N - min b N := by
  induction N with
  | zero => simp
  | succ n ih =>
    rw [List.range_succ, List.filter_append, List.length_append, ih]
    by_cases h : b ≤ n
    · simp [h]; omega
    · simp [h]; omega

/-- Pointwise characterization of `sectionLabel`. -/
lemma sectionLabel_eq_iff (i N : Nat) :
    (sectionLabel i N = "beginning" ↔ i < N / 3) ∧
    (sectionLabel i N = "middle" ↔ N / 3 ≤ i ∧ i < 2 * (N / 3)) ∧
    (sectionLabel i N = "end" ↔ 2 * (N / 3) ≤ i) := by
  unfold sectionLabel
  by_cases h1 : i < N / 3
  · simp [h1]; omega
  · by_cases h2 : i < N / 3 * 2
    · simp [h1, h2]; omega
    · simp [h1, h2]; omega

/-- The three filtered counts over all `N` chunk indices. -/
lemma sectionLabel_counts (N : Nat) :
    ((List.range N).filter (fun j => sectionLabel j N == "beginning")).length
        = N / 3 ∧
    ((List.range N).filter (fun j => sectionLabel j N == "middle")).length
        = N / 3 ∧
    ((List.range N).filter (fun j => sectionLabel j N == "end")).length
        = N - 2 * (N / 3) := by
  have hthird : N / 3 ≤ N := Nat.div_le_self N 3
  have h2third : 2 * (N / 3) ≤ N := by omega
  refine ⟨?_, ?_, ?_⟩
  · rw [List.filter_congr (fun j _ => ?_), length_filter_range_lt N (N / 3)]
    · omega
    · rw [Bool.eq_iff_iff]
      simp only [beq_iff_eq, decide_eq_true_iff]
      exact (sectionLabel_eq_iff j N).1
  · rw [List.filter_congr (fun j _ => ?_),
      length_filter_range_band N (N / 3) (2 * (N / 3))]
    · omega
    · rw [Bool.eq_iff_iff]
      simp only [beq_iff_eq, Bool.and_eq_true, decide_eq_true_iff]
      exact (sectionLabel_eq_iff j N).2.1
  · rw [List.filter_congr (fun j _ => ?_),
      length_filter_range_ge N (2 * (N / 3))]
    · omega
    · rw [Bool.eq_iff_iff]
      simp only [beq_iff_eq, decide_eq_true_iff]
      exact (sectionLabel_eq_iff j N).2.2

/-- C1: for every chunk count `N` and index `i < N`, the section-labeling
code labels `i` "beginning" exactly when `i < ⌊N/3⌋`, "middle" exactly when
`⌊N/3⌋ ≤ i < 2·⌊N/3⌋`, and "end" otherwise; consequently exactly `⌊N/3⌋`
indices get "beginning", exactly `⌊N/3⌋` get "middle", and the remaining
`N − 2·⌊N/3⌋` get "end". The label is by construction a pure function of
`(i, N)`. -/
theorem sectionLabel_correct (N i : Nat) (h : i < N) :
    (sectionLabel i N = "beginning" ↔ i < N / 3) ∧
    (sectionLabel i N = "middle" ↔ N / 3 ≤ i ∧ i < 2 * (N / 3)) ∧
    (sectionLabel i N = "end" ↔ 2 * (N / 3) ≤ i) ∧
    ((List.range N).filter (fun j => sectionLabel j N == "beginning")).length
        = N / 3 ∧
    ((List.range N).filter (fun j => sectionLabel j N == "middle")).length
        = N / 3 ∧
    ((List.range N).filter (fun j => sectionLabel j N == "end")).length
        = N - 2 * (N / 3) := by
  obtain ⟨hb, hm, he⟩ := sectionLabel_eq_iff i N
  obtain ⟨cb, cm, ce⟩ := sectionLabel_counts N
  exact ⟨hb, hm, he, cb, cm, ce⟩

/-- Witness for C1 at `N = 7`, `i = 3`: `⌊7/3⌋ = 2`, so index 3 is in the
middle band and the counts are 2, 2, 3. -/
theorem sectionLabel_correct_witness :
    (sectionLabel 3 7 = "beginning" ↔ 3 < 7 / 3) ∧
    (sectionLabel 3 7 = "middle" ↔ 7 / 3 ≤ 3 ∧ 3 < 2 * (7 / 3)) ∧
    (sectionLabel 3 7 = "end" ↔ 2 * (7 / 3) ≤ 3) ∧
    ((List.range 7).filter (fun j => sectionLabel j 7 == "beginning")).length
        = 7 / 3 ∧
    ((List.range 7).filter (fun j => sectionLabel j 7 == "middle")).length
        = 7 / 3 ∧
    ((List.range 7).filter (fun j => sectionLabel j 7 == "end")).length
        = 7 - 2 * (7 / 3) :=
  sectionLabel_correct 7 3 (by decide)

/-! ## Documents, search spec and retrieval

`Document` embeds the langchain `Document` values flowing through the
pipeline; the metadata key `section` is the field `sect`.
`SearchSpec` embeds the zod `searchSchema` object
`{ query: string, section: enum{beginning,middle,end} }`
(src/pipeline.ts lines 24-27); its `sect` field carries the section string.
-/

structure DocMetadata where
  source : String
  sect : String
  deriving DecidableEq, Repr

structure Document where
  pageContent : String
  metadata : DocMetadata
  deriving DecidableEq, Repr

structure SearchSpec where
  query : String
  sect : String
  deriving DecidableEq, Repr

/-- Modelled from the spec: the Vector Index collaborator
`search(queryText, k, optionalFilter) -> ordered sequence of Chunk`.
The embedding of the query and the similarity ranking are the external
black box; `rankedStore` is the stored chunks already ordered by
descending similarity to the query text. The collaborator applies the
optional metadata filter and returns the top `k` of the matching chunks. -/
def similaritySearch (rankedStore : List Document) (k : Nat)
    (filter : Document → Bool) : List Document :=
  (rankedStore.filter filter).take k

/-- The `retrieve` workflow step's retrieval
(src/pipeline.ts lines 79-90): similarity search with `state.search.query`,
`k = 2`, and the filter `doc.metadata.section === state.search.section`.
`rankedStore` abstracts the index's ranking for `search.query`. -/
def retrieveDocs (rankedStore : List Document) (search : SearchSpec) :
    List Document :=
  similaritySearch rankedStore 2 (fun doc => doc.metadata.sect == search.sect)

/-- The `retrieve` tool (src/unnamed/part_001 lines 563-579 and
src/unnamed/part_002 lines 96-112): unfiltered similarity search with
`k = 2`, returning the serialized context string and the raw documents. -/
def retrieveTool (rankedStore : List Document) : String × List Document :=
  let retrievedDocs := similaritySearch rankedStore 2 (fun _ => true)
  let serialized := String.intercalate "\n"
    (retrievedDocs.map (fun doc =>
      "Source: " ++ doc.metadata.source ++ "\nContent: " ++ doc.pageContent))
  (serialized, retrievedDocs)

/-- C2: section-filtered retrieval returns only chunks whose
`metadata.section` equals the requested section, and when no stored chunk
has that section the result is the empty list (not an error). -/
theorem retrieveDocs_section_filter (rankedStore : List Document)
    (search : SearchSpec) :
    (∀ doc ∈ retrieveDocs rankedStore search,
        doc.metadata.sect = search.sect) ∧
    ((∀ doc ∈ rankedStore, doc.metadata.sect ≠ search.sect) →
        retrieveDocs rankedStore search = []) := by
  constructor
  · intro doc hmem
    have hmem' : doc ∈ rankedStore.filter
        (fun d => d.metadata.sect == search.sect) :=
      List.mem_of_mem_take hmem
    have := (List.mem_filter.mp hmem').2
    exact beq_iff_eq.mp this
  · intro hnone
    unfold retrieveDocs similaritySearch
    have : rankedStore.filter (fun d => d.metadata.sect == search.sect) = [] := by
      rw [List.filter_eq_nil]
      intro d hd
      simp only [beq_iff_eq]
      exact hnone d hd
    rw [this]
    rfl

/-- Witness for C2: a one-document store whose section does not match. -/
theorem retrieveDocs_section_filter_witness :
    (∀ doc ∈ retrieveDocs [⟨"txt", "src", "middle"⟩] ⟨"q", "end"⟩,
        doc.metadata.sect = "end") ∧
    retrieveDocs [⟨"txt", "src", "middle"⟩] ⟨"q", "end"⟩ = [] := by
  have h := retrieveDocs_section_filter [⟨"txt", "src", "middle"⟩] ⟨"q", "end"⟩
  exact ⟨h.1, h.2 (by decide)⟩

/-- C3: both the graph `retrieve` step and the `retrieve` tool request
top-k = 2, so the returned context never holds more than 2 chunks; a
filter matching fewer than 2 chunks simply yields fewer items or none. -/
theorem retrieved_context_at_most_k (rankedStore : List Document)
    (search : SearchSpec) :
    (retrieveDocs rankedStore search).length ≤ 2 ∧
    (retrieveTool rankedStore).2.length ≤ 2 := by
  constructor
  · exact (List.length_take_le 2 _).trans_eq rfl
  · exact (List.length_take_le 2 _).trans_eq rfl

/-! ## Tool-calling graph (variants C and D)

The graph builder (src/unnamed/part_001 lines 663-675 and
src/unnamed/part_002 lines 173-185):

```ts
new StateGraph(MessagesAnnotation)
  .addNode("queryOrRespond", queryOrRespond)
  .addNode("tools", tools)
  .addNode("generate", generate)
  .addEdge("__start__", "queryOrRespond")
  .addConditionalEdges("queryOrRespond", toolsCondition,
    (mapping __end__ to __end__ and tools to tools))
  .addEdge("tools", "generate")
  .addEdge("generate", "__end__");
```
-/

inductive GraphNode where
  | start
  | queryOrRespond
  | tools
  | generate
  | terminal
  deriving DecidableEq, Repr

/-- The compiled graph's transition function. `hasToolCall` is the outcome
of the prebuilt `toolsCondition` at `queryOrRespond`: whether the model's
response contains a tool-call request (modelled from the spec: conditional
edge routes to `tools` when a tool call is present, else to terminal).
All other edges are the unconditional `addEdge` calls; the terminal node
`__end__` has no outgoing edge. -/
def nextNode : GraphNode → Bool → Option GraphNode
  | .start, _ => some .queryOrRespond
  | .queryOrRespond, hasToolCall =>
      some (if hasToolCall then .tools else .terminal)
  | .tools, _ => some .generate
  | .generate, _ => some .terminal
  | .terminal, _ => none

/-- Run the graph from a node with the given fuel, recording the visited
nodes. -/
def runFrom : Nat → GraphNode → Bool → List GraphNode
  | 0, n, _ => [n]
  | fuel + 1, n, hasToolCall =>
      n :: (match nextNode n hasToolCall with
        | none => []
        | some n' => runFrom fuel n' hasToolCall)

/-- The full trace of one invocation of the compiled graph, starting at
`__start__`, given whether `queryOrRespond`'s response carried a tool
call. Fuel 5 exceeds the longest path. -/
def execTrace (hasToolCall : Bool) : List GraphNode :=
  runFrom 5 .start hasToolCall

/-- C4: the tool-calling graph's step relation has exactly the claimed
transitions — the initial node is `queryOrRespond`; `queryOrRespond` goes
to `tools` when the response carries a tool call and to terminal when it
does not; `tools` always goes to `generate`; `generate` always goes to
terminal; terminal has no successor and no other transitions exist — and
no node is re-entered on either execution trace. -/
theorem graph_transitions_exact :
    (∀ b, nextNode .start b = some .queryOrRespond) ∧
    (∀ b, nextNode .queryOrRespond b =
        some (if b then .tools else .terminal)) ∧
    (∀ b, nextNode .tools b = some .generate) ∧
    (∀ b, nextNode .generate b = some .terminal) ∧
    (∀ b, nextNode .terminal b = none) ∧
    (∀ n n' b, nextNode n b = some n' →
        (n = .start ∧ n' = .queryOrRespond) ∨
        (n = .queryOrRespond ∧ b = true ∧ n' = .tools) ∨
        (n = .queryOrRespond ∧ b = false ∧ n' = .terminal) ∨
        (n = .tools ∧ n' = .generate) ∨
        (n = .generate ∧ n' = .terminal)) ∧
    execTrace true =
      [.start, .queryOrRespond, .tools, .generate, .terminal] ∧
    execTrace false = [.start, .queryOrRespond, .terminal] ∧
    (∀ b, (execTrace b).Nodup) := by
  refine ⟨fun b => rfl, fun b => rfl, fun b => rfl, fun b => rfl,
    fun b => rfl, ?_, by decide, by decide, by decide⟩
  intro n n' b h
  cases n <;> cases b <;> simp_all [nextNode]

/-- Witness for C4: instantiate the transition characterization at the
concrete edge `tools → generate` (with a tool call present). -/
theorem graph_transitions_exact_witness :
    (GraphNode.tools = .start ∧ GraphNode.generate = .queryOrRespond) ∨
    (GraphNode.tools = .queryOrRespond ∧ true = true ∧
        GraphNode.generate = .tools) ∨
    (GraphNode.tools = .queryOrRespond ∧ true = false ∧
        GraphNode.generate = .terminal) ∨
    (GraphNode.tools = .tools ∧ GraphNode.generate = .generate) ∨
    (GraphNode.tools = .generate ∧ GraphNode.generate = .terminal) :=
  graph_transitions_exact.2.2.2.2.2.1 .tools .generate true rfl

/-! ## Messages (variants C and D)

`BaseMessage` embeds the langchain message classes appearing in the
source: `HumanMessage`, `SystemMessage`, `AIMessage` (whose `tool_calls`
list defaults to the empty list) and `ToolMessage`. -/

structure MsgToolCall where
  name : String
  args : String
  deriving DecidableEq, Repr

inductive BaseMessage where
  | human (content : String)
  | system (content : String)
  | ai (content : String) (toolCalls : List MsgToolCall)
  | tool (content : String)
  deriving DecidableEq, Repr

def BaseMessage.content : BaseMessage → String
  | .human c => c
  | .system c => c
  | .ai c _ => c
  | .tool c => c

/-- `message instanceof ToolMessage`. -/
def isToolMessage : BaseMessage → Bool
  | .tool _ => true
  | _ => false

/-- The backward collecting loop of `generate`
(src/unnamed/part_001 lines 612-635, src/unnamed/part_002 lines 131-154):
walk the reversed message list, push while the message is a `ToolMessage`,
break at the first message that is not. -/
def collectWhileTool : List BaseMessage → List BaseMessage
  | [] => []
  | m :: rest => if isToolMessage m then m :: collectWhileTool rest else []

/-- `recentToolMessages` after the loop: messages collected from the end
of the list backward, most recent first. -/
def recentToolMessages (messages : List BaseMessage) : List BaseMessage :=
  collectWhileTool messages.reverse

/-- `let toolMessages = recentToolMessages.reverse()`: the collected tool
messages restored to their original forward order. -/
def toolMessages (messages : List BaseMessage) : List BaseMessage :=
  (recentToolMessages messages).reverse

/-- `const docsContent = toolMessages.map((doc) => doc.content).join("\n")`. -/
def docsContent (messages : List BaseMessage) : String :=
  String.intercalate "\n" ((toolMessages messages).map BaseMessage.content)

lemma collectWhileTool_eq_takeWhile (l : List BaseMessage) :
    collectWhileTool l = l.takeWhile isToolMessage := by
  induction l with
  | nil => rfl
  | cons m rest ih =>
    by_cases h : isToolMessage m = true
    · simp [collectWhileTool, List.takeWhile_cons, h, ih]
    · simp only [Bool.not_eq_true] at h
      simp [collectWhileTool, List.takeWhile_cons, h]

lemma takeWhile_all_tool (l : List BaseMessage) :
    ∀ m ∈ l.takeWhile isToolMessage, isToolMessage m = true :=
  fun _ hm => List.mem_takeWhile_imp hm

/-- Any all-true list that is a prefix of `l` is a prefix of
`l.takeWhile p`. -/
lemma all_true_imp_takeWhile (p : BaseMessage → Bool) :
    ∀ (s l : List BaseMessage), s <+: l → (∀ m ∈ s, p m = true) →
      s <+: l.takeWhile p := by
  intro s
  induction s with
  | nil => intro l _ _; exact List.nil_prefix
  | cons a s ih =>
    intro l hpre hall
    obtain ⟨t, ht⟩ := hpre
    cases l with
    | nil => simp at ht
    | cons b l' =>
      rw [List.cons_append] at ht
      injection ht with h1 h2
      subst h1
      have ha : p a = true := hall a (List.mem_cons_self a s)
      rw [List.takeWhile_cons, ha]
      simp only [if_true]
      have hs : s <+: l' := ⟨t, h2⟩
      obtain ⟨u, hu⟩ :=
        ih l' hs (fun m hm => hall m (List.mem_cons_of_mem a hm))
      exact ⟨u, by rw [List.cons_append, hu]⟩

/-- C5: the `generate` step's context string is built from exactly the
maximal contiguous suffix of tool messages — `toolMessages` is a suffix
of the message list, all its elements are tool messages, any all-tool
suffix of the message list is a suffix of it, and the context string
joins its contents in the original forward order. -/
theorem generate_recent_tool_suffix (messages : List BaseMessage) :
    toolMessages messages <:+ messages ∧
    (∀ m ∈ toolMessages messages, isToolMessage m = true) ∧
    (∀ s, s <:+ messages → (∀ m ∈ s, isToolMessage m = true) →
        s <:+ toolMessages messages) ∧
    docsContent messages =
      String.intercalate "\n"
        ((toolMessages messages).map BaseMessage.content) := by
  refine ⟨?_, ?_, ?_, rfl⟩
  · simp only [toolMessages, recentToolMessages, collectWhileTool_eq_takeWhile]
    rw [← List.reverse_prefix, List.reverse_reverse]
    exact List.takeWhile_prefix _
  · simp only [toolMessages, recentToolMessages, collectWhileTool_eq_takeWhile]
    intro m hm
    exact List.mem_takeWhile_imp (List.mem_reverse.mp hm)
  · simp only [toolMessages, recentToolMessages, collectWhileTool_eq_takeWhile]
    intro s hs hall
    rw [← List.reverse_prefix, List.reverse_reverse]
    refine all_true_imp_takeWhile isToolMessage s.reverse messages.reverse
      ( List.reverse_prefix.mpr hs) ?_
    intro m hm
    exact hall m (List.mem_reverse.mp hm)

/-- Witness for C5: on `[human "hi", tool "a", tool "b"]` the suffix
`[tool "b"]` is all-tool, hence a suffix of the collected tool run. -/
theorem generate_recent_tool_suffix_witness :
    [BaseMessage.tool "b"] <:+
      toolMessages [.human "hi", .tool "a", .tool "b"] :=
  (generate_recent_tool_suffix [.human "hi", .tool "a", .tool "b"]).2.2.1
    [BaseMessage.tool "b"] ⟨[.human "hi", .tool "a"], rfl⟩ (by decide)

/-- The `conversationMessages` filter of `generate`
(src/unnamed/part_001 lines 637-647, src/unnamed/part_002 lines 156-166):
keep human messages, system messages, and AI messages whose `tool_calls`
list has length 0. -/
def conversationMessages (messages : List BaseMessage) : List BaseMessage :=
  messages.filter fun m =>
    match m with
    | .human _ => true
    | .system _ => true
    | .ai _ toolCalls => toolCalls.length == 0
    | .tool _ => false

/-- The full system-message content `generate` builds from the collected
tool-message contents. -/
def systemMessageContent (messages : List BaseMessage) : String :=
  "You are an assistant for question-answering tasks. " ++
  "Use the following pieces of retrieved context to answer " ++
  "the question. If you don't know the answer, say that you " ++
  "don't know. Use three sentences maximum and keep the " ++
  "answer concise." ++ "\n\n" ++ docsContent messages

/-- The prompt `generate` passes to the model: the built system message
followed by the filtered conversation history. -/
def generatePrompt (messages : List BaseMessage) : List BaseMessage :=
  .system (systemMessageContent messages) :: conversationMessages messages

/-- C6: the conversation history `generate` passes to the model consists
exactly of the human messages, the system messages, and the AI messages
with an empty tool-call list; every AI message that issued a tool call is
excluded. -/
theorem generate_history_filter (messages : List BaseMessage) :
    (∀ m, m ∈ conversationMessages messages ↔
        (m ∈ messages ∧
          ((∃ c, m = .human c) ∨ (∃ c, m = .system c) ∨
            (∃ c, m = .ai c [])))) ∧
    (∀ c toolCalls, toolCalls ≠ [] →
        BaseMessage.ai c toolCalls ∉ conversationMessages messages) := by
  have hmem : ∀ m, m ∈ conversationMessages messages ↔
      (m ∈ messages ∧
        ((∃ c, m = .human c) ∨ (∃ c, m = .system c) ∨
          (∃ c, m = .ai c []))) := by
    intro m
    unfold conversationMessages
    rw [List.mem_filter]
    refine and_congr_right fun _ => ?_
    cases m with
    | human c => simp
    | system c => simp
    | ai c toolCalls =>
      simp only [beq_iff_eq, List.length_eq_zero]
      constructor
      · rintro rfl
        exact Or.inr (Or.inr ⟨c, rfl⟩)
      · rintro (⟨c', h⟩ | ⟨c', h⟩ | ⟨c', h⟩) <;> simp_all
    | tool c => simp
  refine ⟨hmem, ?_⟩
  intro c toolCalls hne hin
  rcases ((hmem _).mp hin).2 with ⟨c', h⟩ | ⟨c', h⟩ | ⟨c', h⟩ <;> simp_all

/-- Witness for C6: an AI message carrying a tool call is excluded from
the history even when it is present in the message list. -/
theorem generate_history_filter_witness :
    BaseMessage.ai "calling" [⟨"retrieve", "q"⟩] ∉
      conversationMessages
        [.human "hi", .ai "calling" [⟨"retrieve", "q"⟩], .tool "ctx"] :=
  (generate_history_filter
      [.human "hi", .ai "calling" [⟨"retrieve", "q"⟩], .tool "ctx"]).2
    "calling" [⟨"retrieve", "q"⟩] (by decide)

/-! ## CLI argument handling (src/unnamed/part_001 lines 236-247)

```ts
const args = process.argv.slice(2);
if (args.length === 0) {
  console.error("Error: Please provide a query as a command line argument.");
  console.error("Usage: npx tsx pipeline.ts \"Your query here\"");
  process.exit(1);
}
const userQuery = args[0];
```
-/

/-- Outcome of the CLI entry: either the usage message is printed to the
error stream and the process exits with the given code before any
workflow step runs, or the workflow runs on the first argument. `α` is
the type of whatever the rest of `main` produces. -/
inductive CliOutcome (α : Type) where
  | usageExit (stderrLines : List String) (exitCode : Nat)
  | completed (userQuery : String) (result : α)
  deriving DecidableEq, Repr

/-- The two `console.error` lines printed when no argument is given. -/
def usageLines : List String :=
  ["Error: Please provide a query as a command line argument.",
   "Usage: npx tsx pipeline.ts \"Your query here\""]

/-- The CLI entry of the react-agent variant: `args` is
`process.argv.slice(2)`; with no arguments it prints the usage lines and
exits with status 1, otherwise it runs the rest of `main` (abstracted as
`workflow`) on `args[0]`. -/
def cliMain {α : Type} (args : List String) (workflow : String → α) :
    CliOutcome α :=
  match args with
  | [] => .usageExit usageLines 1
  | userQuery :: _ => .completed userQuery (workflow userQuery)

/-- C7: with zero positional arguments the CLI prints the usage message to
the error stream and exits with status 1 (non-zero) without consulting the
workflow; with at least one argument, the first argument is used verbatim
as the user question. -/
theorem cliMain_usage {α : Type} (workflow : String → α) :
    (cliMain [] workflow = .usageExit usageLines 1 ∧ (1 : Nat) ≠ 0) ∧
    (∀ userQuery rest,
        cliMain (userQuery :: rest) workflow =
          .completed userQuery (workflow userQuery)) :=
  ⟨⟨rfl, one_ne_zero⟩, fun _ _ => rfl⟩

/-! ## Query-analyzed workflow state (src/pipeline.ts lines 66-114)

The `StateAnnotation` record and the three steps. External calls are
oracles: `structuredOut` is the structured-output chat call (which may
fail to validate against the SearchSpec schema — `Except.error` is the
SchemaError case), `ranked` maps a query text to the index's ranked
chunks, and `chat` maps a rendered prompt to the model's reply. -/

structure WorkflowState where
  question : String
  search : Option SearchSpec
  context : Option (List Document)
  answer : Option String
  deriving DecidableEq, Repr

/-- A partial state update as returned by one graph node: only the keys
present in the returned object. -/
structure StateUpdate where
  question : Option String := none
  search : Option SearchSpec := none
  context : Option (List Document) := none
  answer : Option String := none
  deriving DecidableEq, Repr

/-- Modelled from the spec: the graph engine merges a node's returned
update into the shared state, overwriting exactly the keys the update
carries. -/
def applyUpdate (s : WorkflowState) (u : StateUpdate) : WorkflowState where
  question := u.question.getD s.question
  search := match u.search with | some v => some v | none => s.search
  context := match u.context with | some v => some v | none => s.context
  answer := match u.answer with | some v => some v | none => s.answer

/-- A TypeScript runtime error from reading a property of `undefined`
(a state field not yet produced), or a propagated provider error. -/
inductive StepError where
  | schemaError (reason : String)
  | undefinedField (fieldName : String)
  deriving DecidableEq, Repr

/-- The `analyzeQuery` step (src/pipeline.ts lines 73-76): invoke the
structured-output model on `state.question` and return `{ search: result }`.
A schema-validation failure propagates: there is no try/catch. -/
def analyzeQuery (structuredOut : String → Except StepError SearchSpec)
    (s : WorkflowState) : Except StepError StateUpdate :=
  (structuredOut s.question).map fun result => { search := some result }

/-- The `retrieve` step (src/pipeline.ts lines 79-90): similarity search
on `state.search.query` with k = 2 and the section filter, returning
`{ context: retrievedDocs }`. Reading `state.search` before `analyzeQuery`
ran would be an undefined-property runtime error. -/
def retrieveStep (ranked : String → List Document) (s : WorkflowState) :
    Except StepError StateUpdate :=
  match s.search with
  | none => .error (.undefinedField "search")
  | some search =>
      .ok { context := some (retrieveDocs (ranked search.query) search) }

/-- The custom prompt template (src/pipeline.ts lines 54-63) applied to a
context string and a question. -/
def renderTemplate (context question : String) : String :=
  "Use the following pieces of context to answer the question at the end.\n" ++
  "      If you don't know the answer, just say that you don't know, " ++
  "don't try to make up an answer.\n" ++
  "      Use three sentences maximum and keep the answer as concise as " ++
  "possible.\n" ++
  "      Always say \"thanks for asking!\" at the end of the answer.\n\n      " ++
  context ++ "\n\n      Question: " ++ question ++ "\n\n      Helpful Answer:"

/-- The `generate` step (src/pipeline.ts lines 93-104): join the contexts'
page contents, render the prompt from `state.question` and the joined
context, invoke the chat model, return `{ answer: response.content }`. -/
def generateStep (chat : String → String) (s : WorkflowState) :
    Except StepError StateUpdate :=
  match s.context with
  | none => .error (.undefinedField "context")
  | some context =>
      let docsContent := String.intercalate "\n"
        (context.map Document.pageContent)
      .ok { answer := some (chat (renderTemplate docsContent s.question)) }

/-- The compiled query-analyzed graph
(src/pipeline.ts lines 106-114): `__start__ → analyzeQuery → retrieve →
generate → __end__`, each step's update merged into the state; a step
error aborts the invocation (modelled from the spec: provider failures
propagate, no retry). -/
def runWorkflow (structuredOut : String → Except StepError SearchSpec)
    (ranked : String → List Document) (chat : String → String)
    (question : String) : Except StepError WorkflowState := do
  let s0 : WorkflowState := ⟨question, none, none, none⟩
  let u1 ← analyzeQuery structuredOut s0
  let s1 := applyUpdate s0 u1
  let u2 ← retrieveStep ranked s1
  let s2 := applyUpdate s1 u2
  let u3 ← generateStep chat s2
  pure (applyUpdate s2 u3)

/-- C8: when the structured-output call fails schema validation for the
question, the whole invocation aborts with that same error — independent
of the retrieval and generation oracles, so no later workflow step runs
and there is no fallback to unfiltered retrieval. -/
theorem analyzeQuery_failure_fatal
    (structuredOut : String → Except StepError SearchSpec)
    (ranked : String → List Document) (chat : String → String)
    (question : String) (e : StepError)
    (hfail : structuredOut question = .error e) :
    runWorkflow structuredOut ranked chat question = .error e := by
  simp [runWorkflow, analyzeQuery, hfail, Except.map, Bind.bind, Except.bind]

/-- Witness for C8: a concrete always-failing structured-output oracle. -/
theorem analyzeQuery_failure_fatal_witness :
    runWorkflow (fun _ => .error (.schemaError "invalid enum value"))
      (fun _ => []) (fun _ => "answer") "What is Task Decomposition?" =
      .error (.schemaError "invalid enum value") :=
  analyzeQuery_failure_fatal _ _ _ _ _ rfl

/-- C9: each step of the query-analyzed workflow writes only its own
field — `analyzeQuery` only `search`, `retrieve` only `context`,
`generate` only `answer` — leaving every other WorkflowState field
unchanged after the merge; and each step reads only fields produced
earlier in the workflow ordering: `analyzeQuery` depends only on
`question`, `retrieve` only on `search`, `generate` only on `question`
and `context`. -/
theorem workflow_frame_conditions :
    (∀ (structuredOut : String → Except StepError SearchSpec) s u,
        analyzeQuery structuredOut s = .ok u →
        u.question = none ∧ u.context = none ∧ u.answer = none ∧
        (applyUpdate s u).question = s.question ∧
        (applyUpdate s u).context = s.context ∧
        (applyUpdate s u).answer = s.answer) ∧
    (∀ (ranked : String → List Document) s u,
        retrieveStep ranked s = .ok u →
        u.question = none ∧ u.search = none ∧ u.answer = none ∧
        (applyUpdate s u).question = s.question ∧
        (applyUpdate s u).search = s.search ∧
        (applyUpdate s u).answer = s.answer) ∧
    (∀ (chat : String → String) s u,
        generateStep chat s = .ok u →
        u.question = none ∧ u.search = none ∧ u.context = none ∧
        (applyUpdate s u).question = s.question ∧
        (applyUpdate s u).search = s.search ∧
        (applyUpdate s u).context = s.context) ∧
    (∀ (structuredOut : String → Except StepError SearchSpec) s t,
        s.question = t.question →
        analyzeQuery structuredOut s = analyzeQuery structuredOut t) ∧
    (∀ (ranked : String → List Document) s t,
        s.search = t.search →
        retrieveStep ranked s = retrieveStep ranked t) ∧
    (∀ (chat : String → String) s t,
        s.question = t.question → s.context = t.context →
        generateStep chat s = generateStep chat t) := by
  refine ⟨?_, ?_, ?_, ?_, ?_, ?_⟩
  · intro so s u hu
    unfold analyzeQuery at hu
    cases h : so s.question with
    | error e => rw [h] at hu; simp [Except.map] at hu
    | ok r =>
      rw [h] at hu
      simp only [Except.map, Except.ok.injEq] at hu
      subst hu
      exact ⟨rfl, rfl, rfl, rfl, rfl, rfl⟩
  · intro ranked s u hu
    unfold retrieveStep at hu
    cases h : s.search with
    | none => rw [h] at hu; exact absurd hu (by simp)
    | some search =>
      rw [h] at hu
      simp only [Except.ok.injEq] at hu
      subst hu
      refine ⟨rfl, rfl, rfl, rfl, ?_, rfl⟩
      simp [applyUpdate, h]
  · intro chat s u hu
    unfold generateStep at hu
    cases h : s.context with
    | none => rw [h] at hu; exact absurd hu (by simp)
    | some context =>
      rw [h] at hu
      simp only [Except.ok.injEq] at hu
      subst hu
      refine ⟨rfl, rfl, rfl, rfl, rfl, ?_⟩
      simp [applyUpdate, h]
  · intro so s t hq
    unfold analyzeQuery
    rw [hq]
  · intro ranked s t hs
    unfold retrieveStep
    rw [hs]
  · intro chat s t hq hc
    unfold generateStep
    rw [hq, hc]

/-- Witness for C9: `analyzeQuery` produces the same result on two states
agreeing on `question` but differing on every other field, and its update
on a concrete state leaves the other fields unchanged. -/
theorem workflow_frame_conditions_witness :
    analyzeQuery (fun q => .ok ⟨q, "end"⟩) ⟨"q1", none, none, none⟩ =
      analyzeQuery (fun q => .ok ⟨q, "end"⟩)
        ⟨"q1", some ⟨"x", "middle"⟩, some [], some "a"⟩ ∧
    ({ search := some ⟨"q1", "end"⟩ } : StateUpdate).context = none :=
  ⟨workflow_frame_conditions.2.2.2.1 (fun q => .ok ⟨q, "end"⟩)
      ⟨"q1", none, none, none⟩
      ⟨"q1", some ⟨"x", "middle"⟩, some [], some "a"⟩ rfl,
    (workflow_frame_conditions.1 (fun q => .ok ⟨q, "end"⟩)
      ⟨"q1", none, none, none⟩ { search := some ⟨"q1", "end"⟩ } rfl).2.1⟩

/-! ## Provider accessors (src/unnamed/part_003)

```ts
let _llm; let _embeddings; let _vectorStore;
export function getLlm() {
  if (!_llm) { _llm = new ChatAnthropic(...); }
  return _llm;
}
export function getEmbeddings() {
  if (!_embeddings) { _embeddings = new CohereEmbeddings(...); }
  return _embeddings;
}
export function getVectorStore() {
  if (!_vectorStore) { _vectorStore = new MemoryVectorStore(getEmbeddings()); }
  return _vectorStore;
}
```

Object identity is modelled by allocation ids: every `new` takes the next
fresh id. A constructed vector store records the id of the embeddings
object passed to its constructor. A constructed object is always truthy
in JS, so `!_x` is exactly the `Option.isNone` test. -/

structure VectorStoreObj where
  id : Nat
  embeddingsId : Nat
  deriving DecidableEq, Repr

/-- The three module-level mutable bindings plus the allocation counter. -/
structure ProvidersState where
  llm : Option Nat
  embeddings : Option Nat
  vectorStore : Option VectorStoreObj
  nextId : Nat
  deriving DecidableEq, Repr

def initProviders : ProvidersState := ⟨none, none, none, 0⟩

def getLlm (st : ProvidersState) : Nat × ProvidersState :=
  match st.llm with
  | some v => (v, st)
  | none =>
      (st.nextId, { st with llm := some st.nextId, nextId := st.nextId + 1 })

def getEmbeddings (st : ProvidersState) : Nat × ProvidersState :=
  match st.embeddings with
  | some v => (v, st)
  | none =>
      (st.nextId,
        { st with embeddings := some st.nextId, nextId := st.nextId + 1 })

def getVectorStore (st : ProvidersState) :
    VectorStoreObj × ProvidersState :=
  match st.vectorStore with
  | some v => (v, st)
  | none =>
      let r := getEmbeddings st
      let vs : VectorStoreObj := ⟨r.2.nextId, r.1⟩
      (vs, { r.2 with vectorStore := some vs, nextId := r.2.nextId + 1 })

inductive ProviderCall where
  | llm
  | embeddings
  | vectorStore
  deriving DecidableEq, Repr

/-- One accessor call, keeping only the state effect. -/
def applyCall (st : ProvidersState) : ProviderCall → ProvidersState
  | .llm => (getLlm st).2
  | .embeddings => (getEmbeddings st).2
  | .vectorStore => (getVectorStore st).2

/-- Run a call sequence from the initial (all-unset) module state. -/
def runCalls (calls : List ProviderCall) : ProvidersState :=
  calls.foldl applyCall initProviders

/-- Number of `_llm` constructions (none-to-some transitions) along a
call sequence from `st`. -/
def llmConsCount : ProvidersState → List ProviderCall → Nat
  | _, [] => 0
  | st, c :: cs =>
      (if st.llm.isNone && ((applyCall st c).llm).isSome then 1 else 0) +
        llmConsCount (applyCall st c) cs

/-- Number of `_embeddings` constructions along a call sequence. -/
def embConsCount : ProvidersState → List ProviderCall → Nat
  | _, [] => 0
  | st, c :: cs =>
      (if st.embeddings.isNone && ((applyCall st c).embeddings).isSome
        then 1 else 0) + embConsCount (applyCall st c) cs

/-- Number of `_vectorStore` constructions along a call sequence. -/
def vsConsCount : ProvidersState → List ProviderCall → Nat
  | _, [] => 0
  | st, c :: cs =>
      (if st.vectorStore.isNone && ((applyCall st c).vectorStore).isSome
        then 1 else 0) + vsConsCount (applyCall st c) cs

lemma getLlm_of_some {st : ProvidersState} {v : Nat} (h : st.llm = some v) :
    getLlm st = (v, st) := by
  simp [getLlm, h]

lemma getEmbeddings_of_some {st : ProvidersState} {v : Nat}
    (h : st.embeddings = some v) : getEmbeddings st = (v, st) := by
  simp [getEmbeddings, h]

lemma getVectorStore_of_some {st : ProvidersState} {v : VectorStoreObj}
    (h : st.vectorStore = some v) : getVectorStore st = (v, st) := by
  simp [getVectorStore, h]

lemma getLlm_stores (st : ProvidersState) :
    (getLlm st).2.llm = some (getLlm st).1 := by
  cases h : st.llm <;> simp [getLlm, h]

lemma getEmbeddings_stores (st : ProvidersState) :
    (getEmbeddings st).2.embeddings = some (getEmbeddings st).1 := by
  cases h : st.embeddings <;> simp [getEmbeddings, h]

lemma getVectorStore_stores (st : ProvidersState) :
    (getVectorStore st).2.vectorStore = some (getVectorStore st).1 := by
  cases h : st.vectorStore <;> simp [getVectorStore, h]

lemma getEmbeddings_llm (st : ProvidersState) :
    (getEmbeddings st).2.llm = st.llm := by
  cases h : st.embeddings <;> simp [getEmbeddings, h]

lemma getEmbeddings_vs (st : ProvidersState) :
    (getEmbeddings st).2.vectorStore = st.vectorStore := by
  cases h : st.embeddings <;> simp [getEmbeddings, h]

/-- Stability: a provider binding, once set, is never replaced by any
later accessor call. -/
lemma applyCall_stable (st : ProvidersState) (c : ProviderCall) :
    (∀ v, st.llm = some v → (applyCall st c).llm = some v) ∧
    (∀ v, st.embeddings = some v → (applyCall st c).embeddings = some v) ∧
    (∀ v, st.vectorStore = some v →
        (applyCall st c).vectorStore = some v) := by
  refine ⟨fun v h => ?_, fun v h => ?_, fun v h => ?_⟩
  · cases c with
    | llm => simp [applyCall, getLlm_of_some h, h]
    | embeddings => simp [applyCall, getEmbeddings_llm, h]
    | vectorStore =>
      cases hv : st.vectorStore with
      | some w => simp [applyCall, getVectorStore_of_some hv, h]
      | none => simp [applyCall, getVectorStore, hv, getEmbeddings_llm, h]
  · cases c with
    | llm => cases hl : st.llm <;> simp [applyCall, getLlm, hl, h]
    | embeddings => simp [applyCall, getEmbeddings_of_some h, h]
    | vectorStore =>
      cases hv : st.vectorStore with
      | some w => simp [applyCall, getVectorStore_of_some hv, h]
      | none =>
        simp [applyCall, getVectorStore, hv, getEmbeddings_of_some h, h]
  · cases c with
    | llm => cases hl : st.llm <;> simp [applyCall, getLlm, hl, h]
    | embeddings => simp [applyCall, getEmbeddings_vs, h]
    | vectorStore => simp [applyCall, getVectorStore_of_some h, h]

lemma foldl_stable_llm (extra : List ProviderCall) :
    ∀ (st : ProvidersState) (v : Nat), st.llm = some v →
      (extra.foldl applyCall st).llm = some v := by
  induction extra with
  | nil => intro st v h; exact h
  | cons c cs ih =>
    intro st v h
    exact ih _ v ((applyCall_stable st c).1 v h)

lemma foldl_stable_emb (extra : List ProviderCall) :
    ∀ (st : ProvidersState) (v : Nat), st.embeddings = some v →
      (extra.foldl applyCall st).embeddings = some v := by
  induction extra with
  | nil => intro st v h; exact h
  | cons c cs ih =>
    intro st v h
    exact ih _ v ((applyCall_stable st c).2.1 v h)

lemma foldl_stable_vs (extra : List ProviderCall) :
    ∀ (st : ProvidersState) (v : VectorStoreObj), st.vectorStore = some v →
      (extra.foldl applyCall st).vectorStore = some v := by
  induction extra with
  | nil => intro st v h; exact h
  | cons c cs ih =>
    intro st v h
    exact ih _ v ((applyCall_stable st c).2.2 v h)

lemma getLlm_emb (st : ProvidersState) :
    (getLlm st).2.embeddings = st.embeddings := by
  cases h : st.llm <;> simp [getLlm, h]

lemma getLlm_vs (st : ProvidersState) :
    (getLlm st).2.vectorStore = st.vectorStore := by
  cases h : st.llm <;> simp [getLlm, h]

lemma llmConsCount_eq_zero (cs : List ProviderCall) :
    ∀ (st : ProvidersState), st.llm.isSome → llmConsCount st cs = 0 := by
  induction cs with
  | nil => intro st _; rfl
  | cons c cs ih =>
    intro st h
    obtain ⟨v, hv⟩ := Option.isSome_iff_exists.mp h
    have h2 := (applyCall_stable st c).1 v hv
    simp [llmConsCount, hv, ih (applyCall st c) (by simp [h2])]

lemma embConsCount_eq_zero (cs : List ProviderCall) :
    ∀ (st : ProvidersState), st.embeddings.isSome → embConsCount st cs = 0 := by
  induction cs with
  | nil => intro st _; rfl
  | cons c cs ih =>
    intro st h
    obtain ⟨v, hv⟩ := Option.isSome_iff_exists.mp h
    have h2 := (applyCall_stable st c).2.1 v hv
    simp [embConsCount, hv, ih (applyCall st c) (by simp [h2])]

lemma vsConsCount_eq_zero (cs : List ProviderCall) :
    ∀ (st : ProvidersState), st.vectorStore.isSome → vsConsCount st cs = 0 := by
  induction cs with
  | nil => intro st _; rfl
  | cons c cs ih =>
    intro st h
    obtain ⟨v, hv⟩ := Option.isSome_iff_exists.mp h
    have h2 := (applyCall_stable st c).2.2 v hv
    simp [vsConsCount, hv, ih (applyCall st c) (by simp [h2])]

lemma llmConsCount_le_one (cs : List ProviderCall) :
    ∀ (st : ProvidersState), llmConsCount st cs ≤ 1 := by
  induction cs with
  | nil => intro st; simp [llmConsCount]
  | cons c cs ih =>
    intro st
    cases happ : ((applyCall st c).llm) with
    | none => simp [llmConsCount, happ]; exact ih _
    | some v =>
      have h0 : llmConsCount (applyCall st c) cs = 0 :=
        llmConsCount_eq_zero cs _ (by simp [happ])
      simp only [llmConsCount, h0]
      split <;> omega

lemma embConsCount_le_one (cs : List ProviderCall) :
    ∀ (st : ProvidersState), embConsCount st cs ≤ 1 := by
  induction cs with
  | nil => intro st; simp [embConsCount]
  | cons c cs ih =>
    intro st
    cases happ : ((applyCall st c).embeddings) with
    | none => simp [embConsCount, happ]; exact ih _
    | some v =>
      have h0 : embConsCount (applyCall st c) cs = 0 :=
        embConsCount_eq_zero cs _ (by simp [happ])
      simp only [embConsCount, h0]
      split <;> omega

lemma vsConsCount_le_one (cs : List ProviderCall) :
    ∀ (st : ProvidersState), vsConsCount st cs ≤ 1 := by
  induction cs with
  | nil => intro st; simp [vsConsCount]
  | cons c cs ih =>
    intro st
    cases happ : ((applyCall st c).vectorStore) with
    | none => simp [vsConsCount, happ]; exact ih _
    | some v =>
      have h0 : vsConsCount (applyCall st c) cs = 0 :=
        vsConsCount_eq_zero cs _ (by simp [happ])
      simp only [vsConsCount, h0]
      split <;> omega

/-- The vector store singleton, when set, records the id of the
embeddings singleton. -/
def ProvidersInv (st : ProvidersState) : Prop :=
  ∀ vs, st.vectorStore = some vs → st.embeddings = some vs.embeddingsId

lemma applyCall_inv (st : ProvidersState) (c : ProviderCall)
    (h : ProvidersInv st) : ProvidersInv (applyCall st c) := by
  cases c with
  | llm =>
    intro vs hvs
    rw [show applyCall st .llm = (getLlm st).2 from rfl, getLlm_vs] at hvs
    rw [show applyCall st .llm = (getLlm st).2 from rfl, getLlm_emb]
    exact h vs hvs
  | embeddings =>
    intro vs hvs
    rw [show applyCall st .embeddings = (getEmbeddings st).2 from rfl,
      getEmbeddings_vs] at hvs
    have he := h vs hvs
    rw [show applyCall st .embeddings = (getEmbeddings st).2 from rfl,
      getEmbeddings_of_some he]
    exact he
  | vectorStore =>
    cases hv : st.vectorStore with
    | some w =>
      intro vs hvs
      rw [show applyCall st .vectorStore = (getVectorStore st).2 from rfl,
        getVectorStore_of_some hv] at hvs ⊢
      exact h vs hvs
    | none =>
      intro vs hvs
      simp only [applyCall, getVectorStore, hv] at hvs ⊢
      obtain rfl : (⟨(getEmbeddings st).2.nextId, (getEmbeddings st).1⟩ :
          VectorStoreObj) = vs := Option.some.inj hvs
      exact getEmbeddings_stores st

lemma inv_foldl (cs : List ProviderCall) :
    ∀ (st : ProvidersState), ProvidersInv st →
      ProvidersInv (cs.foldl applyCall st) := by
  induction cs with
  | nil => intro st h; exact h
  | cons c cs ih =>
    intro st h
    exact ih _ (applyCall_inv st c h)

lemma inv_runCalls (calls : List ProviderCall) :
    ProvidersInv (runCalls calls) :=
  inv_foldl calls initProviders (fun vs h => by simp [initProviders] at h)

/-- C10: the provider accessors are lazy memoized singletons — in any
call sequence each client is constructed at most once; a call stores what
it returns, and once a singleton is set every later call (after any
further calls) returns that same object; and the vector store always
carries the embeddings singleton: its recorded embeddings id is exactly
what `getEmbeddings` returns in the same state. -/
theorem providers_lazy_memoized :
    (∀ calls : List ProviderCall,
        llmConsCount initProviders calls ≤ 1 ∧
        embConsCount initProviders calls ≤ 1 ∧
        vsConsCount initProviders calls ≤ 1) ∧
    (∀ calls, (getLlm (runCalls calls)).2.llm =
        some (getLlm (runCalls calls)).1) ∧
    (∀ calls, (getEmbeddings (runCalls calls)).2.embeddings =
        some (getEmbeddings (runCalls calls)).1) ∧
    (∀ calls, (getVectorStore (runCalls calls)).2.vectorStore =
        some (getVectorStore (runCalls calls)).1) ∧
    (∀ calls extra v, (runCalls calls).llm = some v →
        (getLlm (runCalls (calls ++ extra))).1 = v) ∧
    (∀ calls extra v, (runCalls calls).embeddings = some v →
        (getEmbeddings (runCalls (calls ++ extra))).1 = v) ∧
    (∀ calls extra vs, (runCalls calls).vectorStore = some vs →
        (getVectorStore (runCalls (calls ++ extra))).1 = vs) ∧
    (∀ calls, (getVectorStore (runCalls calls)).1.embeddingsId =
        (getEmbeddings (runCalls calls)).1) := by
  refine ⟨fun calls => ⟨llmConsCount_le_one calls _, embConsCount_le_one calls _,
      vsConsCount_le_one calls _⟩,
    fun calls => getLlm_stores _, fun calls => getEmbeddings_stores _,
    fun calls => getVectorStore_stores _, ?_, ?_, ?_, ?_⟩
  · intro calls extra v h
    have hst : (runCalls (calls ++ extra)).llm = some v := by
      rw [runCalls, List.foldl_append]
      exact foldl_stable_llm extra _ v h
    rw [getLlm_of_some hst]
  · intro calls extra v h
    have hst : (runCalls (calls ++ extra)).embeddings = some v := by
      rw [runCalls, List.foldl_append]
      exact foldl_stable_emb extra _ v h
    rw [getEmbeddings_of_some hst]
  · intro calls extra vs h
    have hst : (runCalls (calls ++ extra)).vectorStore = some vs := by
      rw [runCalls, List.foldl_append]
      exact foldl_stable_vs extra _ vs h
    rw [getVectorStore_of_some hst]
  · intro calls
    have hinv := inv_runCalls calls
    cases hv : (runCalls calls).vectorStore with
    | some vs =>
      rw [getVectorStore_of_some hv, getEmbeddings_of_some (hinv vs hv)]
    | none => simp [getVectorStore, hv]

/-- Witness for C10: after the sequence `[llm]` the llm singleton holds
id 0, and after the further calls `[embeddings, llm]` a fresh `getLlm`
still returns id 0. -/
theorem providers_lazy_memoized_witness :
    (getLlm (runCalls ([.llm] ++ [.embeddings, .llm]))).1 = 0 :=
  providers_lazy_memoized.2.2.2.2.1 [.llm] [.embeddings, .llm] 0 (by decide)

/-- Witness for C7: concrete runs of the CLI entry with zero arguments
and with one argument. -/
theorem cliMain_usage_witness :
    cliMain [] (fun _ => (0 : Nat)) = .usageExit usageLines 1 ∧
    cliMain ["What is Task Decomposition?"] (fun _ => (0 : Nat)) =
      .completed "What is Task Decomposition?" 0 :=
  ⟨(cliMain_usage (fun _ => (0 : Nat))).1.1,
    (cliMain_usage (fun _ => (0 : Nat))).2 "What is Task Decomposition?" []⟩
